import Mathlib

/-!
Verification of the cottoncandy chunked numeric-array storage codec.

This file shallow-embeds the routines of gallantlab/cottoncandy that the
frozen claims are about and proves or refutes each claim against them:

* `upload_raw_array` / `download_raw_array` (interfaces.py) — the single
  object array wire format: metadata (dtype, shape, order, compression)
  plus a compressed byte body;
* `generate_ndarray_chunks` (utils.py) — the size-bounded chunk planner;
* `upload_multipart` (s3client.py) — the multipart part-size policy;
* `upload_dask_array` (interfaces.py) — chunked upload with a manifest;
* `upload_sparse_array` / `download_sparse_array` (interfaces.py).

Machine integers are modelled as `Nat` (Python integers are unbounded, and
all quantities here are non-negative).  External libraries (gzip, numcodecs,
scipy constructors, numpy's dtype registry) enter only through their
documented interfaces: compressors are function parameters, numpy dtype
strings go through a finite table of canonical tags.  Where the source uses
IEEE float arithmetic (`np.ceil`, `np.log`/`np.exp`, float division) the
embedding uses exact arithmetic on the same formula; each such place carries
a comment describing when the two agree (always, at the concrete inputs
evaluated in this file).
-/

namespace Cottoncandy

/-- Python exceptions surfaced by the embedded functions. -/
inductive PyErr where
  | attributeError
  | valueError
  | assertionError
  | keyError
  | typeError
  | importError
  | zeroDivisionError
  | fileNotFoundError
  | unboundLocalError
deriving DecidableEq, Repr

/-- Raw byte strings; each entry stands for one byte. -/
abbrev Bytes := List Nat

/-- Memory layout of a numpy array: row-major (`C`) or column-major (`F`). -/
inductive Order where
  | C
  | F
deriving DecidableEq, Repr

/-! ## Store-imposed size constants (utils.py lines 32-38)

The numeric values come from the source's own comments next to each
constant: `min_mpu_size` 5 MB, `max_put_size` 5 GB, `max_mpu_size_TB` 5 TB,
`max_mpu_parts` 10,000. -/

/-- One mebibyte, `MB = 2**20` (utils.py line 32). -/
def MB : Nat := 2 ^ 20

/-- Minimum size of one multipart-upload part, 5 MB (utils.py line 33). -/
def MIN_MPU_SIZE : Nat := 5 * MB

/-- Maximum size of a single put (one part), 5 GB (utils.py line 34). -/
def MAX_PUT_SIZE : Nat := 5 * 1024 * MB

/-- Maximum total size of a multipart upload, 5 TB (utils.py line 35). -/
def MAX_MPU_SIZE : Nat := 5 * MB * MB

/-- Maximum number of parts in a multipart upload (utils.py line 36). -/
def MAX_MPU_PARTS : Nat := 10000

/-! ## Multipart upload sizing (s3client.py, `S3Client.upload_multipart`) -/

/-- The buffersize adjustment of `upload_multipart` (s3client.py 410-417):
when the payload is smaller than the requested part size, the part size is
rederived from the store minimum.  The source computes
`npotential = nbytes_total / float(MIN_MPU_SIZE)` and tests
`npotential > 10`; for the magnitudes representable here (totals below 5 TB,
divisor 5 MB) the float64 quotient decides that comparison exactly as the
integer comparison `nbytes_total > 10 * MIN_MPU_SIZE` does, which is how it
is written below. -/
def mpuAdjustBuffersize (nbytesTotal buffersize : Nat) : Nat :=
  if nbytesTotal < buffersize then
    if 10 * MIN_MPU_SIZE < nbytesTotal then 2 * MIN_MPU_SIZE else MIN_MPU_SIZE
  else buffersize

/-- Outcome of the sizing phase of `upload_multipart`: the adjusted part
size, the number of parts, and the byte size of each part in part-number
order. -/
structure MpuPlan where
  buffersize : Nat
  nparts : Nat
  partSizes : List Nat
deriving DecidableEq, Repr

/-- Per-part byte sizes of the upload loop (s3client.py 433-446): every part
reads `buffersize` bytes except the last, which absorbs the remainder
(`buffersize += last_part_offset` when `part_number == nparts`). -/
def mpuPartSizes (nparts buffersize lastPartOffset : Nat) : List Nat :=
  (List.range nparts).map fun i =>
    if i + 1 = nparts then buffersize + lastPartOffset else buffersize

/-- The sizing and checking phase of `upload_multipart` (s3client.py
406-446), up to and including the asserts that guard the part-upload loop.
`nparts = int(np.floor(nbytes_total / float(buffersize)))` is floor
division; for totals below 5 TB (enforced by the first assert, and exact in
float64) the float64 quotient floors exactly as integer division does.
A zero adjusted buffersize (only possible when the caller passes
`buffersize = 0` and the total is not smaller than it) raises
ZeroDivisionError at that division, before the asserts. -/
def uploadMultipartPlan (nbytesTotal buffersize0 : Nat) : Except PyErr MpuPlan :=
  let buffersize := mpuAdjustBuffersize nbytesTotal buffersize0
  if buffersize = 0 then .error .zeroDivisionError
  else
    let nparts := nbytesTotal / buffersize
    let lastPartOffset := nbytesTotal - nparts * buffersize
    if nbytesTotal < MAX_MPU_SIZE then
      if MIN_MPU_SIZE ≤ buffersize then
        if nparts < MAX_MPU_PARTS then
          if buffersize < nbytesTotal then
            .ok ⟨buffersize, nparts, mpuPartSizes nparts buffersize lastPartOffset⟩
          else .error .assertionError
        else .error .assertionError
      else .error .assertionError
    else .error .assertionError

lemma mpuPartSizes_length (n bs off : Nat) : (mpuPartSizes n bs off).length = n := by
  simp [mpuPartSizes]

lemma mpuPartSizes_mem_ge (n bs off : Nat) {p : Nat} (hp : p ∈ mpuPartSizes n bs off) :
    bs ≤ p := by
  simp only [mpuPartSizes, List.mem_map] at hp
  obtain ⟨i, _, rfl⟩ := hp
  split <;> omega

lemma mpuPartSizes_sum (n bs off : Nat) (hn : 1 ≤ n) :
    (mpuPartSizes n bs off).sum = n * bs + off := by
  obtain ⟨m, rfl⟩ : ∃ m, n = m + 1 := ⟨n - 1, by omega⟩
  have hrange : List.range (m + 1) = List.range m ++ [m] := by
    simpa using List.range_succ (n := m)
  have hmap : (List.range m).map
      (fun i => if i + 1 = m + 1 then bs + off else bs) = (List.range m).map (fun _ => bs) := by
    apply List.map_congr_left
    intro a ha
    have : a < m := List.mem_range.mp ha
    have : ¬ (a + 1 = m + 1) := by omega
    simp [this]
  simp only [mpuPartSizes, hrange, List.map_append, List.sum_append, hmap]
  simp [List.map_const', List.sum_replicate, smul_eq_mul, Nat.succ_mul]
  omega

/-- C5 counterexample: the claim predicts that a 20 MB payload uploaded with
a 100 MB requested part size (so total `< 10 × min_part_size`) is given part
size `2 × min_part_size`; the code gives it `min_part_size` (the source's
small-payload branch doubles the minimum only when
`total > 10 × min_part_size`, the reverse of the claim's policy). -/
theorem mpu_small_payload_policy_reversed :
    mpuAdjustBuffersize (20 * MB) (100 * MB) = MIN_MPU_SIZE ∧
      MIN_MPU_SIZE ≠ 2 * MIN_MPU_SIZE := by
  constructor
  · rfl
  · decide

/-- C5 (amended): when the total payload is smaller than the requested part
size, `upload_multipart` rederives the part size from the store minimum by
the policy: if `total > 10 × min_part_size` then the part size becomes
`2 × min_part_size`, else it becomes `min_part_size`. -/
theorem mpuAdjustBuffersize_small_payload (total buffersize0 : Nat)
    (h : total < buffersize0) :
    mpuAdjustBuffersize total buffersize0 =
      if 10 * MIN_MPU_SIZE < total then 2 * MIN_MPU_SIZE else MIN_MPU_SIZE := by
  simp [mpuAdjustBuffersize, h]

/-- Witness for `mpuAdjustBuffersize_small_payload` at a 20 MB payload with
a 100 MB requested part size. -/
theorem mpuAdjustBuffersize_small_payload_w :
    20 * MB < 100 * MB ∧
      mpuAdjustBuffersize (20 * MB) (100 * MB) =
        if 10 * MIN_MPU_SIZE < 20 * MB then 2 * MIN_MPU_SIZE else MIN_MPU_SIZE :=
  ⟨by decide, mpuAdjustBuffersize_small_payload (20 * MB) (100 * MB) (by decide)⟩

/-- C6 counterexample: a 10 GB payload with a requested part size of 6 GB
passes every assert of `upload_multipart` and proceeds to upload, with a
chosen part size of 6 GB and a single actual part of 10 GB, both above
`max_part_size` (5 GB): the upper bound on the part size claimed as an
invariant is never checked by the code. -/
theorem mpu_part_size_not_bounded_above :
    uploadMultipartPlan (10 * 1024 * MB) (6 * 1024 * MB)
        = .ok ⟨6 * 1024 * MB, 1, [10 * 1024 * MB]⟩ ∧
      MAX_PUT_SIZE < 6 * 1024 * MB := by
  constructor
  · rfl
  · decide

/-- C6 (amended): whenever `upload_multipart` proceeds past its asserts, the
chosen part size is at least `min_part_size` (as is every actual part), the
part count is strictly below `max_part_count`, the total is strictly below
`max_total_size`, and the parts exactly cover the payload; any violation of
those checked bounds fails (by assert) before any part is sent.  The upper
bound `part_size_bytes ≤ max_part_size` is NOT checked and can be exceeded
(see the counterexample). -/
theorem uploadMultipartPlan_invariants (total buffersize0 : Nat) (plan : MpuPlan)
    (h : uploadMultipartPlan total buffersize0 = .ok plan) :
    MIN_MPU_SIZE ≤ plan.buffersize ∧
      plan.nparts < MAX_MPU_PARTS ∧
      total < MAX_MPU_SIZE ∧
      (∀ p ∈ plan.partSizes, MIN_MPU_SIZE ≤ p) ∧
      plan.partSizes.length = plan.nparts ∧
      plan.partSizes.sum = total := by
  simp only [uploadMultipartPlan] at h
  set bs := mpuAdjustBuffersize total buffersize0 with hbs
  by_cases h0 : bs = 0
  · simp [h0] at h
  · simp only [h0, if_false] at h
    split at h
    · split at h
      · split at h
        · split at h
          · rename_i hmax hmin hparts hlt
            cases h
            refine ⟨hmin, hparts, hmax, ?_, mpuPartSizes_length _ _ _, ?_⟩
            · intro p hp
              exact le_trans hmin (mpuPartSizes_mem_ge _ _ _ hp)
            · have h1 : 1 ≤ total / bs := by
                have : bs ≤ total := le_of_lt hlt
                exact Nat.one_le_div_iff (Nat.pos_of_ne_zero h0) |>.mpr this
              rw [mpuPartSizes_sum _ _ _ h1]
              have hle : total / bs * bs ≤ total := Nat.div_mul_le_self total bs
              omega
          · exact absurd h (by simp)
        · exact absurd h (by simp)
      · exact absurd h (by simp)
    · exact absurd h (by simp)

/-- Witness for `uploadMultipartPlan_invariants`: a 200 MB payload with the
default 100 MB part size yields two 100 MB parts. -/
theorem uploadMultipartPlan_invariants_w :
    uploadMultipartPlan (200 * MB) (100 * MB) = .ok ⟨100 * MB, 2, [100 * MB, 100 * MB]⟩ ∧
      MIN_MPU_SIZE ≤ (MpuPlan.mk (100 * MB) 2 [100 * MB, 100 * MB]).buffersize :=
  ⟨rfl, (uploadMultipartPlan_invariants (200 * MB) (100 * MB) _ rfl).1⟩

/-! ## Decimal printing and parsing of shape metadata

The raw-array wire format stores the shape as the comma-joined decimal
rendering of the dimensions (`','.join(map(str, shape))`) and parses it back
with `map(int, shape.split(','))`.  The following models Python's `str` on
non-negative integers, `','.join`, `split(',')` and `int` (restricted to the
digit strings this codec produces; Python's `int` also accepts signs and
surrounding whitespace, which never occur here). -/

/-- Character for a single decimal digit. -/
def digitChar (d : Nat) : Char := Char.ofNat (48 + d)

/-- Decimal rendering of a natural number, most significant digit first;
models Python `str` on a non-negative int. -/
def natChars (n : Nat) : List Char :=
  if _h : n < 10 then [digitChar n]
  else natChars (n / 10) ++ [digitChar (n % 10)]
decreasing_by exact Nat.div_lt_self (by omega) (by omega)

/-- Value of one decimal digit character, `none` on a non-digit. -/
def digitVal (c : Char) : Option Nat :=
  if '0' ≤ c ∧ c ≤ '9' then some (c.toNat - 48) else none

/-- Accumulating decimal parse over a character list. -/
def parseNatLoop (acc : Option Nat) (l : List Char) : Option Nat :=
  l.foldl (fun a c => a.bind fun v => (digitVal c).map fun d => v * 10 + d) acc

/-- Parse of a decimal numeral; models Python `int` on the strings this
codec produces (`int` of the empty string raises, hence `none`). -/
def parseNatChars (l : List Char) : Option Nat :=
  if l = [] then none else parseNatLoop (some 0) l

/-- Comma-join of rendered words; models `','.join`. -/
def joinComma : List (List Char) → List Char
  | [] => []
  | [w] => w
  | w :: ws => w ++ ',' :: joinComma ws

/-- Split on commas; models Python `split(',')` (the empty string splits to
one empty word). -/
def splitComma : List Char → List (List Char)
  | [] => [[]]
  | c :: cs =>
    if c = ',' then [] :: splitComma cs
    else
      match splitComma cs with
      | [] => [[c]]
      | w :: ws => (c :: w) :: ws

lemma digitVal_digitChar {d : Nat} (hd : d < 10) : digitVal (digitChar d) = some d := by
  interval_cases d <;> decide

lemma digitChar_ne_comma {d : Nat} (hd : d < 10) : digitChar d ≠ ',' := by
  interval_cases d <;> decide

lemma natChars_ne_nil (n : Nat) : natChars n ≠ [] := by
  rw [natChars]
  split <;> simp

lemma natChars_no_comma (n : Nat) : ',' ∉ natChars n := by
  induction n using Nat.strong_induction_on with
  | _ n ih =>
    rw [natChars]
    split
    · simp only [List.mem_singleton]
      exact fun h => digitChar_ne_comma (by omega) h.symm
    · rename_i h
      intro hmem
      rcases List.mem_append.mp hmem with h1 | h2
      · exact ih (n / 10) (Nat.div_lt_self (by omega) (by omega)) h1
      · exact digitChar_ne_comma (Nat.mod_lt _ (by omega)) (List.mem_singleton.mp h2).symm

lemma parseNatLoop_append (a : Option Nat) (l1 l2 : List Char) :
    parseNatLoop a (l1 ++ l2) = parseNatLoop (parseNatLoop a l1) l2 := by
  simp [parseNatLoop, List.foldl_append]

lemma parseNatLoop_natChars (n : Nat) :
    ∀ a : Nat, parseNatLoop (some a) (natChars n)
      = some (a * 10 ^ (natChars n).length + n) := by
  induction n using Nat.strong_induction_on with
  | _ n ih =>
    intro a
    rw [natChars]
    split
    · rename_i h
      simp [parseNatLoop, digitVal_digitChar h]
    · rename_i h
      rw [parseNatLoop_append, ih (n / 10) (Nat.div_lt_self (by omega) (by omega)) a]
      have hlen : (natChars (n / 10) ++ [digitChar (n % 10)]).length
          = (natChars (n / 10)).length + 1 := by simp
      simp only [parseNatLoop, List.foldl_cons, List.foldl_nil, Option.bind_some,
        Option.some_bind, digitVal_digitChar (Nat.mod_lt n (by omega)), Option.map_some', hlen]
      congr 1
      rw [pow_succ, Nat.add_mul, Nat.mul_assoc]
      omega

lemma parseNatChars_natChars (n : Nat) : parseNatChars (natChars n) = some n := by
  rw [parseNatChars, if_neg (natChars_ne_nil n), parseNatLoop_natChars n 0]
  simp

lemma splitComma_no_comma {l : List Char} (h : ',' ∉ l) : splitComma l = [l] := by
  induction l with
  | nil => rfl
  | cons c cs ih =>
    have hc : ¬ c = ',' := fun hc => h (hc ▸ List.mem_cons_self c cs)
    have hcs : ',' ∉ cs := fun hm => h (List.mem_cons_of_mem c hm)
    simp [splitComma, hc, ih hcs]

lemma splitComma_append {w : List Char} (l : List Char) (h : ',' ∉ w) :
    splitComma (w ++ ',' :: l) = w :: splitComma l := by
  induction w with
  | nil => simp [splitComma]
  | cons c cs ih =>
    have hc : ¬ c = ',' := fun hc => h (hc ▸ List.mem_cons_self c cs)
    have hcs : ',' ∉ cs := fun hm => h (List.mem_cons_of_mem c hm)
    simp only [List.cons_append, splitComma, hc, if_false, List.append_eq, ih hcs]

lemma splitComma_joinComma (ws : List (List Char)) (hne : ws ≠ [])
    (hw : ∀ w ∈ ws, ',' ∉ w) : splitComma (joinComma ws) = ws := by
  induction ws with
  | nil => exact absurd rfl hne
  | cons w rest ih =>
    cases rest with
    | nil => exact splitComma_no_comma (hw w (List.mem_cons_self w []))
    | cons w2 rest2 =>
      have h1 : ',' ∉ w := hw w (List.mem_cons_self _ _)
      have h2 : ∀ u ∈ w2 :: rest2, ',' ∉ u := fun u hu => hw u (List.mem_cons_of_mem _ hu)
      simp only [joinComma, splitComma_append _ h1, ih (by simp) h2]

/-! ## The raw-array wire format (`upload_raw_array` / `download_raw_array`) -/

/-- Rendering of a shape as stored metadata: `','.join(map(str, shape))`
(interfaces.py 585).  The empty shape (0-d array) renders as the empty
string. -/
def shapeStr (shape : List Nat) : String := ⟨joinComma (shape.map natChars)⟩

/-- Integer parse of every word, failing on the first bad word, as the
forced `map(int, ...)` does. -/
def parseAllNat : List (List Char) → Option (List Nat)
  | [] => some []
  | w :: ws => (parseNatChars w).bind fun n => (parseAllNat ws).map fun ns => n :: ns

/-- Parse of the stored shape string (interfaces.py 649):
`map(int, shape.split(',')) if shape else ()`. -/
def parseShape (s : String) : Option (List Nat) :=
  if s.data = [] then some [] else parseAllNat (splitComma s.data)

lemma parseAllNat_natChars (l : List Nat) :
    parseAllNat (l.map natChars) = some l := by
  induction l with
  | nil => rfl
  | cons n ns ih => simp [parseAllNat, parseNatChars_natChars, ih]

lemma parseShape_shapeStr (shape : List Nat) : parseShape (shapeStr shape) = some shape := by
  cases shape with
  | nil => rfl
  | cons d ds =>
    have hne : (d :: ds).map natChars ≠ [] := by simp
    have hw : ∀ w ∈ (d :: ds).map natChars, ',' ∉ w := by
      intro w hw
      obtain ⟨n, _, rfl⟩ := List.mem_map.mp hw
      exact natChars_no_comma n
    have hjoin : joinComma ((d :: ds).map natChars) ≠ [] := by
      rw [List.map_cons]
      cases hds : ds.map natChars with
      | nil => simpa [joinComma] using natChars_ne_nil d
      | cons w ws => simp [joinComma]
    rw [parseShape, shapeStr]
    simp only [hjoin, if_false]
    rw [splitComma_joinComma _ hne hw, parseAllNat_natChars]

/-- Byte width of a canonical numpy dtype tag: a partial model of
`np.dtype(tag).itemsize` (numpy's registry is an external collaborator).
Tags outside the table make `np.dtype` raise, modelled as `none`. -/
def dtypeItemsize (s : String) : Option Nat :=
  if s = "|b1" ∨ s = "|i1" ∨ s = "|u1" then some 1
  else if s = "<f2" ∨ s = "<i2" ∨ s = "<u2" ∨ s = ">f2" ∨ s = ">i2" ∨ s = ">u2" then some 2
  else if s = "<f4" ∨ s = "<i4" ∨ s = "<u4" ∨ s = ">f4" ∨ s = ">i4" ∨ s = ">u4" then some 4
  else if s = "<f8" ∨ s = "<i8" ∨ s = "<u8" ∨ s = ">f8" ∨ s = ">i8" ∨ s = ">u8" then some 8
  else none

/-- A contiguous numpy array: canonical dtype tag, its byte width, logical
shape, the storage layout of the buffer, and the buffer itself (raw bytes in
memory order).  Non-contiguous views are outside the embedding's domain:
`upload_raw_array` copies them to a contiguous array before doing anything
observable here. -/
structure NpArray where
  dtypeStr : String
  itemsize : Nat
  shape : List Nat
  order : Order
  data : Bytes
deriving DecidableEq, Repr

/-- numpy `nbytes`: itemsize times the number of elements. -/
def NpArray.nbytes (a : NpArray) : Nat := a.itemsize * a.shape.prod

/-- True when the array is empty or at most one dimension exceeds 1; numpy
marks such arrays both C- and F-contiguous regardless of nominal layout. -/
def degenerateShape (shape : List Nat) : Bool :=
  decide (shape.prod = 0 ∨ (shape.countP fun d => decide (1 < d)) ≤ 1)

/-- numpy's `flags.f_contiguous`. -/
def NpArray.fContig (a : NpArray) : Bool := a.order = Order.F || degenerateShape a.shape

/-- numpy's `flags.c_contiguous`. -/
def NpArray.cContig (a : NpArray) : Bool := a.order = Order.C || degenerateShape a.shape

/-- The order `upload_raw_array` selects and records (interfaces.py 578):
`'F' if array.flags.f_contiguous else 'C'`. -/
def chosenOrder (a : NpArray) : Order := if a.fContig then Order.F else Order.C

/-- Normalizes the nominal layout of arrays whose layout is observationally
meaningless (both contiguity flags set) to the layout `upload_raw_array`
records for them.  On every other array this is the identity; it never
touches dtype, shape or bytes, so `canon a` denotes the same numpy value as
`a`. -/
def NpArray.canon (a : NpArray) : NpArray := { a with order := chosenOrder a }

/-- External compression collaborators at their interface boundary: the
gzip stream codec (GzipFile on upload, GzipInputStream on download) and the
numcodecs registry.  `ncHas s` models `hasattr(numcodecs, s)` on a
lowercased module name; `ncEnc name` and `ncDec name` model the named
codec's `encode` and `decode` on the raw buffer bytes. -/
structure Codecs where
  gzipC : Bytes → Bytes
  gzipD : Bytes → Bytes
  ncHas : String → Bool
  ncEnc : String → Bytes → Bytes
  ncDec : String → Bytes → Bytes

/-- Trivial instantiation of the collaborators: identity compressors and an
empty numcodecs registry.  Used to witness theorems that hold for every
collaborator. -/
def idCodecs : Codecs := ⟨id, id, fun _ => false, fun _ b => b, fun _ b => b⟩

/-- An object as stored: string metadata and the byte body. -/
structure StoredObj where
  meta : List (String × String)
  content : Bytes
deriving DecidableEq, Repr

/-- First-match metadata lookup, modelling Python dict access on the
stored string metadata. -/
def metaLookup (m : List (String × String)) (k : String) : Option String :=
  (m.find? fun kv => kv.1 == k).map Prod.snd

/-- Metadata rendering of the order tag (interfaces.py 578,587). -/
def orderStr : Order → String
  | Order.C => "C"
  | Order.F => "F"

/-- Metadata rendering of the compression argument, `str(compression)`
(interfaces.py 586): Python `None` renders as the string `"None"`. -/
def comprStr : Option String → String
  | none => "None"
  | some s => s

/-- The gzip-size downgrade (interfaces.py 574-576): arrays of `2**31`
bytes or more requested with gzip have their compression replaced by
`None` before anything else happens. -/
def effCompression (a : NpArray) (compression : Option String) : Option String :=
  if 2 ^ 31 ≤ a.nbytes ∧ compression = some "gzip" then none else compression

/-- The four reserved metadata entries `upload_raw_array` always stores
(interfaces.py 584-587). -/
def rawArrayMeta (a : NpArray) (compression : Option String) : List (String × String) :=
  [("dtype", a.dtypeStr), ("shape", shapeStr a.shape),
   ("compression", comprStr (effCompression a compression)),
   ("order", orderStr (chosenOrder a))]

/-- Shallow embedding of `ArrayInterface.upload_raw_array` (interfaces.py
549-623).  Notes on the translation:

* order selection (578-582): for every representable (hence contiguous)
  array the chosen order's contiguity flag holds, so the copy branch for
  non-contiguous slices is never taken;
* the user-metadata conflict assert (589-595) runs before any compression
  or upload work;
* compression dispatch (598-621): the gzip branch writes the raw buffer
  through GzipFile (for F-contiguous arrays it first takes `array.T`, a
  view over the same buffer, so the bytes written are `arr.data` either
  way); the numcodecs branch tests `hasattr(numcodecs,
  compression.lower())` — when `compression` is `None` this evaluates
  `None.lower()` and raises AttributeError, so the `compression is None`
  branch below it is unreachable and no uncompressed upload ever happens;
* an error result models an exception raised before `upload_object` is
  called: nothing is stored in that case. -/
def uploadRawArray (w : Codecs) (arr : NpArray) (compression0 : Option String)
    (userMeta : List (String × String)) : Except PyErr StoredObj :=
  let compression := effCompression arr compression0
  let baseMeta := rawArrayMeta arr compression0
  if userMeta.any (fun kv => baseMeta.any fun kv2 => kv2.1 == kv.1) then
    .error .assertionError
  else
    let meta := baseMeta ++ userMeta
    match compression with
    | some s =>
      if s = "gzip" then .ok ⟨meta, w.gzipC arr.data⟩
      else if w.ncHas s.toLower then .ok ⟨meta, w.ncEnc s arr.data⟩
      else .error .valueError
    | none => .error .attributeError

/-- Parse of the stored order tag, as validated by `np.empty(..., order=o)`
(anything other than C or F raises). -/
def parseOrder (s : String) : Option Order :=
  if s = "C" then some Order.C else if s = "F" then some Order.F else none

/-- Shallow embedding of `ArrayInterface.download_raw_array` (interfaces.py
625-675).  Notes on the translation:

* `shape = map(int, shape.split(','))` builds a lazy Python map; the
  integers are only parsed when `np.empty(tuple(shape), ...)` forces them,
  after the dtype lookup — hence the order of the failure cases below;
* a missing `order` key defaults to `'C'` (line 651) and a missing
  `compression` key skips decompression (line 655): neither is an error;
* `read_buffered` fills the fresh array's buffer (through a transposed
  view when the array is F-ordered, so in memory order either way) with
  exactly `size * itemsize` bytes of the decompressed stream; a shorter
  stream raises, surplus bytes are ignored. -/
def downloadRawArray (w : Codecs) (obj : StoredObj) : Except PyErr NpArray :=
  match metaLookup obj.meta "shape" with
  | none => .error .keyError
  | some shapeS =>
    match metaLookup obj.meta "dtype" with
    | none => .error .keyError
    | some dtypeS =>
      match dtypeItemsize dtypeS with
      | none => .error .typeError
      | some isz =>
        match parseShape shapeS with
        | none => .error .valueError
        | some shape =>
          match parseOrder ((metaLookup obj.meta "order").getD "C") with
          | none => .error .valueError
          | some ord =>
            let dec : Except PyErr Bytes :=
              match metaLookup obj.meta "compression" with
              | some c =>
                if c = "None" then .ok obj.content
                else if c = "gzip" then .ok (w.gzipD obj.content)
                else if w.ncHas c.toLower then .ok (w.ncDec c obj.content)
                else .error .importError
              | none => .ok obj.content
            match dec with
            | .error e => .error e
            | .ok bits =>
              if isz * shape.prod ≤ bits.length then
                .ok ⟨dtypeS, isz, shape, ord, bits.take (isz * shape.prod)⟩
              else .error .valueError

/-- C1: `download_raw_array ∘ upload_raw_array` cannot be the identity for
every compression scheme, because `upload_raw_array` with `compression=None`
never reaches its uncompressed branch: the preceding
`hasattr(numcodecs, compression.lower())` test evaluates `None.lower()` and
raises AttributeError (interfaces.py 611 vs 617).  This contradicts the
function's own docstring ("None is no compression") and the uncompressed
round-trip test in tests/test_roundtrip.py, so it is a code bug rather than
a spec error; here the code is evaluated at a failing input. -/
theorem uploadRawArray_none_raises :
    uploadRawArray idCodecs ⟨"|u1", 1, [3], Order.C, [1, 2, 3]⟩ none [] =
      .error .attributeError := rfl

/-- C4: an array of `2**31` bytes or more requested with gzip does get its
compression silently replaced by `None` and never attempts gzip, but the
upload then crashes with AttributeError at the
`hasattr(numcodecs, compression.lower())` test instead of completing
through the uncompressed path (interfaces.py 574-576, 611, 617). -/
theorem uploadRawArray_large_gzip_crashes (w : Codecs) (arr : NpArray)
    (h : 2 ^ 31 ≤ arr.nbytes) :
    uploadRawArray w arr (some "gzip") [] = .error .attributeError := by
  have h2 : (2147483648 : Nat) ≤ arr.nbytes := by
    have : (2 : Nat) ^ 31 = 2147483648 := by norm_num
    omega
  simp [uploadRawArray, effCompression, h2]

/-- Witness for `uploadRawArray_large_gzip_crashes` at a 2 GiB single-byte
dtype array.  Only the control flow of `upload_raw_array` depends on the
buffer, so the witness leaves it empty. -/
theorem uploadRawArray_large_gzip_crashes_w :
    2 ^ 31 ≤ NpArray.nbytes ⟨"|u1", 1, [2 ^ 31], Order.C, []⟩ ∧
      uploadRawArray idCodecs ⟨"|u1", 1, [2 ^ 31], Order.C, []⟩ (some "gzip") [] =
        .error .attributeError :=
  ⟨by decide, uploadRawArray_large_gzip_crashes idCodecs _ (by decide)⟩

/-- The reserved metadata keys of the raw-array format. -/
def reservedKeys : List String := ["dtype", "shape", "compression", "order"]

lemma rawArrayMeta_keys (a : NpArray) (c : Option String) :
    (rawArrayMeta a c).map Prod.fst = reservedKeys := rfl

lemma conflict_check_eq (a : NpArray) (c : Option String) (kv : String × String) :
    ((rawArrayMeta a c).any fun kv2 => kv2.1 == kv.1) = reservedKeys.any (· == kv.1) := rfl

/-- C10: a user metadata key equal to one of the reserved keys dtype,
shape, compression, order makes `upload_raw_array` fail its assert
(interfaces.py 589-595) before anything is uploaded; otherwise, whenever the
upload succeeds, the stored metadata is exactly the four reserved entries
followed by the user entries. -/
theorem uploadRawArray_user_metadata (w : Codecs) (arr : NpArray)
    (compression : Option String) (userMeta : List (String × String)) :
    ((userMeta.any fun kv => reservedKeys.any (· == kv.1)) = true →
        uploadRawArray w arr compression userMeta = .error .assertionError) ∧
      (∀ obj, uploadRawArray w arr compression userMeta = .ok obj →
        obj.meta = rawArrayMeta arr compression ++ userMeta) := by
  constructor
  · intro hconf
    have hconf2 : (userMeta.any fun kv =>
        (rawArrayMeta arr compression).any fun kv2 => kv2.1 == kv.1) = true := by
      rw [show (fun kv : String × String =>
        (rawArrayMeta arr compression).any fun kv2 => kv2.1 == kv.1)
          = fun kv : String × String => reservedKeys.any (· == kv.1) from
        funext fun kv => conflict_check_eq arr compression kv]
      exact hconf
    simp only [uploadRawArray, hconf2, if_true]
  · intro obj hok
    simp only [uploadRawArray] at hok
    split at hok
    · exact absurd hok (by simp)
    · split at hok
      · split at hok
        · cases hok
          rfl
        · split at hok
          · cases hok
            rfl
          · exact absurd hok (by simp)
      · exact absurd hok (by simp)

/-- Witness for `uploadRawArray_user_metadata`: a user key `dtype` collides
and the call fails the assert. -/
theorem uploadRawArray_user_metadata_w :
    uploadRawArray idCodecs ⟨"|u1", 1, [3], Order.C, [1, 2, 3]⟩ (some "gzip")
        [("dtype", "x")] = .error .assertionError :=
  (uploadRawArray_user_metadata idCodecs _ (some "gzip") [("dtype", "x")]).1 (by decide)

/-- C7 counterexample: a stored object carrying only dtype and shape
metadata (no order, no compression) decodes successfully — order defaults to
row-major and the body is used undecompressed — refuting the claim that the
absence of any of the four fields is a decode error. -/
theorem download_missing_order_compression_succeeds :
    downloadRawArray idCodecs ⟨[("dtype", "|u1"), ("shape", "2")], [5, 6]⟩ =
      .ok ⟨"|u1", 1, [2], Order.C, [5, 6]⟩ := rfl

/-- C7 (amended): only a missing `dtype` or `shape` is a decode error
(KeyError); a missing `order` silently defaults to row-major `'C'`, and a
missing `compression` is silently treated as no compression, the raw body
being copied into the result. -/
theorem downloadRawArray_missing_fields (w : Codecs) (obj : StoredObj) :
    (metaLookup obj.meta "shape" = none → downloadRawArray w obj = .error .keyError) ∧
      (metaLookup obj.meta "dtype" = none → downloadRawArray w obj = .error .keyError) ∧
      (metaLookup obj.meta "order" = none →
        ∀ arr, downloadRawArray w obj = .ok arr → arr.order = Order.C) ∧
      (metaLookup obj.meta "compression" = none →
        ∀ arr, downloadRawArray w obj = .ok arr →
          arr.data = obj.content.take (arr.itemsize * arr.shape.prod)) := by
  refine ⟨?_, ?_, ?_, ?_⟩
  · intro hs
    simp [downloadRawArray, hs]
  · intro hd
    cases hs : metaLookup obj.meta "shape" with
    | none => simp [downloadRawArray, hs]
    | some v => simp [downloadRawArray, hs, hd]
  · intro ho arr hok
    have hpc : parseOrder "C" = some Order.C := rfl
    simp only [downloadRawArray, ho, Option.getD_none, hpc] at hok
    split at hok; · cases hok
    split at hok; · cases hok
    split at hok; · cases hok
    split at hok; · cases hok
    split at hok
    · cases hok
    · split at hok
      · cases hok
        rfl
      · cases hok
  · intro hc arr hok
    simp only [downloadRawArray, hc] at hok
    split at hok; · cases hok
    split at hok; · cases hok
    split at hok; · cases hok
    split at hok; · cases hok
    split at hok; · cases hok
    split at hok
    · cases hok
      rfl
    · cases hok

/-- Witness for `downloadRawArray_missing_fields`: an object with no
metadata at all fails with KeyError. -/
theorem downloadRawArray_missing_fields_w :
    downloadRawArray idCodecs ⟨[], [1, 2]⟩ = .error .keyError :=
  (downloadRawArray_missing_fields idCodecs ⟨[], [1, 2]⟩).1 rfl

/-! ## Raw-array round trip through the gzip scheme

These helper lemmas feed the sparse round trip (every sparse constituent is
uploaded by `upload_raw_array` with its default `compression="gzip"`). -/

/-- Well-formedness of an array with respect to the external collaborators:
its dtype tag is a canonical tag whose registered width is its itemsize, its
buffer has exactly `nbytes` bytes, and it is below the gzip size downgrade
threshold. -/
def NpArray.wf (a : NpArray) : Prop :=
  dtypeItemsize a.dtypeStr = some a.itemsize ∧
    a.data.length = a.nbytes ∧ a.nbytes < 2 ^ 31

instance (a : NpArray) : Decidable a.wf := by
  unfold NpArray.wf
  infer_instance

lemma uploadRawArray_gzip_ok (w : Codecs) (arr : NpArray) (h31 : arr.nbytes < 2 ^ 31) :
    uploadRawArray w arr (some "gzip") [] =
      .ok ⟨rawArrayMeta arr (some "gzip"), w.gzipC arr.data⟩ := by
  have h2 : ¬ (2147483648 : Nat) ≤ arr.nbytes := by
    have : (2 : Nat) ^ 31 = 2147483648 := by norm_num
    omega
  simp [uploadRawArray, effCompression, h2]

lemma parseOrder_orderStr (o : Order) : parseOrder (orderStr o) = some o := by
  cases o <;> rfl

lemma downloadRawArray_of_gzip_upload (w : Codecs) (arr : NpArray)
    (hinv : w.gzipD (w.gzipC arr.data) = arr.data)
    (hdt : dtypeItemsize arr.dtypeStr = some arr.itemsize)
    (hlen : arr.data.length = arr.nbytes) (h31 : arr.nbytes < 2 ^ 31) :
    downloadRawArray w ⟨rawArrayMeta arr (some "gzip"), w.gzipC arr.data⟩ =
      .ok arr.canon := by
  have heff : effCompression arr (some "gzip") = some "gzip" := by
    have h2 : ¬ (2147483648 : Nat) ≤ arr.nbytes := by
      have : (2 : Nat) ^ 31 = 2147483648 := by norm_num
      omega
    simp [effCompression, h2]
  have hlen1 : arr.data.length = arr.itemsize * arr.shape.prod := hlen
  have hlen2 : arr.itemsize * arr.shape.prod ≤ arr.data.length := le_of_eq hlen1.symm
  simp only [downloadRawArray, rawArrayMeta, heff, comprStr, metaLookup, List.find?]
  simp only [show (("dtype" : String) == "shape") = false from rfl,
    show (("dtype" : String) == "dtype") = true from rfl,
    show (("dtype" : String) == "order") = false from rfl,
    show (("shape" : String) == "order") = false from rfl,
    show (("compression" : String) == "order") = false from rfl,
    show (("order" : String) == "order") = true from rfl,
    show (("dtype" : String) == "compression") = false from rfl,
    show (("shape" : String) == "compression") = false from rfl,
    show (("compression" : String) == "compression") = true from rfl,
    show (("shape" : String) == "shape") = true from rfl]
  simp only [Option.map_some', Option.getD_some, hdt, parseShape_shapeStr,
    parseOrder_orderStr]
  simp only [show ("gzip" : String) = "None" ↔ False from by simp, if_false, iff_false,
    if_true, show (("gzip" : String) = "gzip") = True from by simp, hinv]
  rw [if_pos hlen2]
  have htake : arr.data.take (arr.itemsize * arr.shape.prod) = arr.data :=
    List.take_of_length_le (le_of_eq hlen1)
  rw [htake]
  rfl

/-! ## The sparse-matrix codec (`upload_sparse_array` / `download_sparse_array`)

A scipy sparse matrix of one of the five exactly-encoded families is
represented by its shape and its constituent buffer arrays, exactly the
attributes the source reads (`data`/`indices`/`indptr`, `row`/`col`/`data`,
or `data`/`offsets`).  The scipy constructors invoked on download store the
buffers they are given, so reconstruction is modelled by the corresponding
constructor of this type (scipy may additionally re-canonicalize the
integer dtype of index buffers, which changes no entry of the matrix and is
not modelled).  The two families with no direct encoding carry an
opaque scipy-side payload (`δ` for dictionary-of-keys, `ε` for
list-of-lists) together with scipy's `tocsr` conversion, which enters as an
abstract function producing the csr constituent buffers. -/

/-- Sparse matrix representations, one constructor per scipy family the
source dispatches on (interfaces.py 881-900). -/
inductive SpMatrix (δ ε : Type) where
  | csr (shape : List Nat) (data indices indptr : NpArray)
  | coo (shape : List Nat) (row col data : NpArray)
  | csc (shape : List Nat) (data indices indptr : NpArray)
  | bsr (shape : List Nat) (data indices indptr : NpArray)
  | dia (shape : List Nat) (data offsets : NpArray)
  | dok (shape : List Nat) (rep : δ)
  | lil (shape : List Nat) (rep : ε)
deriving DecidableEq

/-- Logical shape of the matrix (scipy `arr.shape`; `tocsr` preserves it). -/
def SpMatrix.spShape {δ ε : Type} : SpMatrix δ ε → List Nat
  | .csr shape _ _ _ => shape
  | .coo shape _ _ _ => shape
  | .csc shape _ _ _ => shape
  | .bsr shape _ _ _ => shape
  | .dia shape _ _ => shape
  | .dok shape _ => shape
  | .lil shape _ => shape

/-- The dok/lil-to-csr conversion applied before encoding (interfaces.py
896-900, `arr = arr.tocsr()`); the identity on every other family. -/
def SpMatrix.convert {δ ε : Type} (tocsrD : δ → NpArray × NpArray × NpArray)
    (tocsrL : ε → NpArray × NpArray × NpArray) : SpMatrix δ ε → SpMatrix δ ε
  | .dok shape r => .csr shape (tocsrD r).1 (tocsrD r).2.1 (tocsrD r).2.2
  | .lil shape r => .csr shape (tocsrL r).1 (tocsrL r).2.1 (tocsrL r).2.2
  | m => m

/-- The `arrtype` tag stored in the sparse manifest (interfaces.py
881-900). -/
def SpMatrix.arrtype {δ ε : Type} : SpMatrix δ ε → String
  | .csr _ _ _ _ => "csr"
  | .coo _ _ _ _ => "coo"
  | .csc _ _ _ _ => "csc"
  | .bsr _ _ _ _ => "bsr"
  | .dia _ _ _ => "dia"
  | .dok _ _ => "csr"
  | .lil _ _ => "csr"

/-- The attribute names stored in the sparse manifest, in upload order
(interfaces.py 881-900). -/
def SpMatrix.attrs {δ ε : Type} : SpMatrix δ ε → List String
  | .csr _ _ _ _ => ["data", "indices", "indptr"]
  | .coo _ _ _ _ => ["row", "col", "data"]
  | .csc _ _ _ _ => ["data", "indices", "indptr"]
  | .bsr _ _ _ _ => ["data", "indices", "indptr"]
  | .dia _ _ _ => ["data", "offsets"]
  | .dok _ _ => ["data", "indices", "indptr"]
  | .lil _ _ => ["data", "indices", "indptr"]

/-- The constituent buffers uploaded for a matrix, paired with their
attribute names (the `getattr(arr, attr)` loop, interfaces.py 903-904);
meaningful on already-converted matrices. -/
def SpMatrix.constituents {δ ε : Type} : SpMatrix δ ε → List (String × NpArray)
  | .csr _ d i p => [("data", d), ("indices", i), ("indptr", p)]
  | .coo _ r c d => [("row", r), ("col", c), ("data", d)]
  | .csc _ d i p => [("data", d), ("indices", i), ("indptr", p)]
  | .bsr _ d i p => [("data", d), ("indices", i), ("indptr", p)]
  | .dia _ d o => [("data", d), ("offsets", o)]
  | .dok _ _ => []
  | .lil _ _ => []

/-- Maps every constituent buffer through `NpArray.canon` (the layout-tag
normalization that `upload_raw_array`/`download_raw_array` applies; it
changes no dtype, shape or byte of any buffer). -/
def SpMatrix.canonArrays {δ ε : Type} : SpMatrix δ ε → SpMatrix δ ε
  | .csr shape d i p => .csr shape d.canon i.canon p.canon
  | .coo shape r c d => .coo shape r.canon c.canon d.canon
  | .csc shape d i p => .csc shape d.canon i.canon p.canon
  | .bsr shape d i p => .bsr shape d.canon i.canon p.canon
  | .dia shape d o => .dia shape d.canon o.canon
  | .dok shape r => .dok shape r
  | .lil shape r => .lil shape r

/-- The sparse manifest uploaded as `metadata.json` (interfaces.py 907). -/
structure SparseMeta where
  arrtype : String
  attrs : List String
  shape : List Nat
deriving DecidableEq, Repr

/-- The objects produced by one `upload_sparse_array` call: the constituent
part objects keyed by their full object names, and the manifest. -/
structure SparseStore where
  parts : List (String × StoredObj)
  meta : SparseMeta

/-- Object-name joining (utils.py `pathjoin` with the `/` separator), for a
prefix that does not end in the separator and a suffix that does not start
with it — the only case the sparse and chunked codecs produce. -/
def pathjoin (a b : String) : String := ⟨a.data ++ '/' :: b.data⟩

lemma pathjoin_right_inj (n : String) {a b : String} (h : a ≠ b) :
    pathjoin n a ≠ pathjoin n b := by
  intro hab
  apply h
  have : n.data ++ '/' :: a.data = n.data ++ '/' :: b.data := congrArg String.data hab
  have h2 := List.append_cancel_left this
  cases a with
  | mk da =>
    cases b with
    | mk db => exact congrArg String.mk (List.cons_injective h2)

/-- Upload of the constituent arrays, each through `upload_raw_array` with
its default gzip compression (interfaces.py 903-904). -/
def uploadSparseParts (w : Codecs) (objectName : String) :
    List (String × NpArray) → Except PyErr (List (String × StoredObj))
  | [] => .ok []
  | (attr, a) :: rest =>
    (uploadRawArray w a (some "gzip") []).bind fun obj =>
      (uploadSparseParts w objectName rest).map fun os =>
        (pathjoin objectName attr, obj) :: os

/-- Shallow embedding of `ArrayInterface.upload_sparse_array` (interfaces.py
869-908): convert dok/lil to csr, upload one raw array per constituent
attribute, then upload the `{type, attrs, shape}` manifest. -/
def uploadSparseArray {δ ε : Type} (w : Codecs) (objectName : String)
    (tocsrD : δ → NpArray × NpArray × NpArray) (tocsrL : ε → NpArray × NpArray × NpArray)
    (m : SpMatrix δ ε) : Except PyErr SparseStore :=
  let mc := m.convert tocsrD tocsrL
  (uploadSparseParts w objectName mc.constituents).map fun parts =>
    ⟨parts, ⟨mc.arrtype, mc.attrs, mc.spShape⟩⟩

/-- Association lookup by string key (Python dict access). -/
def assocFind {α : Type} (l : List (String × α)) (k : String) : Option α :=
  (l.find? fun kv => kv.1 == k).map Prod.snd

/-- Download of the constituent arrays named by the manifest (interfaces.py
930-932): each is fetched by its full object name and decoded by
`download_raw_array`; a missing object raises (exists_object with
raise_err=True). -/
def downloadSparseParts (w : Codecs) (objectName : String)
    (parts : List (String × StoredObj)) :
    List String → Except PyErr (List (String × NpArray))
  | [] => .ok []
  | attr :: rest =>
    match assocFind parts (pathjoin objectName attr) with
    | none => .error .fileNotFoundError
    | some obj =>
      (downloadRawArray w obj).bind fun a =>
        (downloadSparseParts w objectName parts rest).map fun d => (attr, a) :: d

/-- Shallow embedding of `ArrayInterface.download_sparse_array`
(interfaces.py 910-949): read the manifest, fetch every constituent named in
`attrs`, and dispatch on the `type` tag, passing the constituents to the
scipy constructor positionally.  An unrecognized tag leaves the result
variable unbound in the source (UnboundLocalError). -/
def downloadSparseArray {δ ε : Type} (w : Codecs) (objectName : String)
    (st : SparseStore) : Except PyErr (SpMatrix δ ε) :=
  (downloadSparseParts w objectName st.parts st.meta.attrs).bind fun d =>
    let get : String → Except PyErr NpArray := fun k =>
      match assocFind d k with
      | none => .error .keyError
      | some a => .ok a
    if st.meta.arrtype = "csr" then
      (get "data").bind fun da => (get "indices").bind fun ia =>
        (get "indptr").map fun pa => .csr st.meta.shape da ia pa
    else if st.meta.arrtype = "coo" then
      (get "data").bind fun da => (get "row").bind fun ra =>
        (get "col").map fun ca => .coo st.meta.shape ra ca da
    else if st.meta.arrtype = "csc" then
      (get "data").bind fun da => (get "indices").bind fun ia =>
        (get "indptr").map fun pa => .csc st.meta.shape da ia pa
    else if st.meta.arrtype = "bsr" then
      (get "data").bind fun da => (get "indices").bind fun ia =>
        (get "indptr").map fun pa => .bsr st.meta.shape da ia pa
    else if st.meta.arrtype = "dia" then
      (get "data").bind fun da => (get "offsets").map fun oa =>
        .dia st.meta.shape da oa
    else .error .unboundLocalError

/-- True on the five families with a direct encoding; dok and lil are the
two converted ones. -/
def SpMatrix.isExact {δ ε : Type} : SpMatrix δ ε → Bool
  | .dok _ _ => false
  | .lil _ _ => false
  | _ => true

lemma convert_of_isExact {δ ε : Type} (tocsrD : δ → NpArray × NpArray × NpArray)
    (tocsrL : ε → NpArray × NpArray × NpArray) (mc : SpMatrix δ ε)
    (hex : mc.isExact = true) : mc.convert tocsrD tocsrL = mc := by
  cases mc <;> first | rfl | exact absurd hex (by simp [SpMatrix.isExact])

lemma convert_isExact {δ ε : Type} (tocsrD : δ → NpArray × NpArray × NpArray)
    (tocsrL : ε → NpArray × NpArray × NpArray) (m : SpMatrix δ ε) :
    (m.convert tocsrD tocsrL).isExact = true := by
  cases m <;> rfl

lemma canonArrays_spShape {δ ε : Type} (mc : SpMatrix δ ε) :
    mc.canonArrays.spShape = mc.spShape := by
  cases mc <;> rfl

lemma convert_spShape {δ ε : Type} (tocsrD : δ → NpArray × NpArray × NpArray)
    (tocsrL : ε → NpArray × NpArray × NpArray) (m : SpMatrix δ ε) :
    (m.convert tocsrD tocsrL).spShape = m.spShape := by
  cases m <;> rfl

lemma uploadSparseParts_ok (w : Codecs) (n : String) (cs : List (String × NpArray))
    (hwf : ∀ p ∈ cs, p.2.nbytes < 2 ^ 31) :
    uploadSparseParts w n cs = .ok (cs.map fun q =>
      (pathjoin n q.1, (⟨rawArrayMeta q.2 (some "gzip"), w.gzipC q.2.data⟩ : StoredObj))) := by
  induction cs with
  | nil => rfl
  | cons p rest ih =>
    obtain ⟨attr, a⟩ := p
    have h1 := uploadRawArray_gzip_ok w a (hwf (attr, a) (List.mem_cons_self _ _))
    have h2 := ih fun q hq => hwf q (List.mem_cons_of_mem _ hq)
    simp only [uploadSparseParts, h1, h2, Except.bind, Except.map, List.map_cons]

lemma assocFind_map_pathjoin (n : String) (f : String × NpArray → StoredObj)
    (cs : List (String × NpArray)) (hnd : (cs.map Prod.fst).Nodup)
    {p : String × NpArray} (hp : p ∈ cs) :
    assocFind (cs.map fun q => (pathjoin n q.1, f q)) (pathjoin n p.1) = some (f p) := by
  induction cs with
  | nil => cases hp
  | cons q rest ih =>
    rcases List.mem_cons.mp hp with rfl | hp2
    · simp [assocFind, List.find?]
    · by_cases hqp : q.1 = p.1
      · exfalso
        have hmem : p.1 ∈ rest.map Prod.fst := List.mem_map.mpr ⟨p, hp2, rfl⟩
        rw [← hqp] at hmem
        exact (List.nodup_cons.mp (List.map_cons Prod.fst q rest ▸ hnd)).1 hmem
      · have hne := pathjoin_right_inj n hqp
        have hbeq : (pathjoin n q.1 == pathjoin n p.1) = false := beq_eq_false_iff_ne.mpr hne
        simp only [List.map_cons, assocFind, List.find?, hbeq]
        exact ih (List.nodup_cons.mp (List.map_cons Prod.fst q rest ▸ hnd)).2 hp2

lemma downloadSparseParts_ok (w : Codecs) (n : String) (P : List (String × StoredObj))
    (cs : List (String × NpArray))
    (hfind : ∀ p ∈ cs, assocFind P (pathjoin n p.1)
      = some ⟨rawArrayMeta p.2 (some "gzip"), w.gzipC p.2.data⟩)
    (hdl : ∀ p ∈ cs, downloadRawArray w ⟨rawArrayMeta p.2 (some "gzip"), w.gzipC p.2.data⟩
      = .ok p.2.canon) :
    downloadSparseParts w n P (cs.map Prod.fst) = .ok (cs.map fun p => (p.1, p.2.canon)) := by
  induction cs with
  | nil => rfl
  | cons p rest ih =>
    have h1 := hfind p (List.mem_cons_self _ _)
    have h2 := hdl p (List.mem_cons_self _ _)
    have h3 := ih (fun q hq => hfind q (List.mem_cons_of_mem _ hq))
      (fun q hq => hdl q (List.mem_cons_of_mem _ hq))
    simp only [List.map_cons, downloadSparseParts, h1, h2, h3, Except.bind, Except.map]

lemma sparse_exact_roundtrip {δ ε : Type} (w : Codecs)
    (tocsrD : δ → NpArray × NpArray × NpArray) (tocsrL : ε → NpArray × NpArray × NpArray)
    (hw : ∀ b, w.gzipD (w.gzipC b) = b) (n : String) (mc : SpMatrix δ ε)
    (hex : mc.isExact = true) (hwf : ∀ p ∈ mc.constituents, p.2.wf) :
    ∃ st, uploadSparseArray w n tocsrD tocsrL mc = .ok st ∧
      downloadSparseArray w n st = .ok mc.canonArrays := by
  have hup := uploadSparseParts_ok w n mc.constituents fun p hp => (hwf p hp).2.2
  have hdl : ∀ p ∈ mc.constituents,
      downloadRawArray w ⟨rawArrayMeta p.2 (some "gzip"), w.gzipC p.2.data⟩
        = .ok p.2.canon := fun p hp =>
    downloadRawArray_of_gzip_upload w p.2 (hw p.2.data) (hwf p hp).1 (hwf p hp).2.1
      (hwf p hp).2.2
  refine ⟨⟨mc.constituents.map fun q =>
      (pathjoin n q.1, ⟨rawArrayMeta q.2 (some "gzip"), w.gzipC q.2.data⟩),
    ⟨mc.arrtype, mc.attrs, mc.spShape⟩⟩, ?_, ?_⟩
  · simp only [uploadSparseArray, convert_of_isExact tocsrD tocsrL mc hex, hup, Except.map]
  · have hattrs : mc.attrs = mc.constituents.map Prod.fst := by
      cases mc <;> first | rfl | exact absurd hex (by simp [SpMatrix.isExact])
    have hnd : (mc.constituents.map Prod.fst).Nodup := by
      cases mc <;> first | decide | simp [SpMatrix.constituents]
    have hfind : ∀ p ∈ mc.constituents,
        assocFind (mc.constituents.map fun q =>
            (pathjoin n q.1,
              (⟨rawArrayMeta q.2 (some "gzip"), w.gzipC q.2.data⟩ : StoredObj)))
          (pathjoin n p.1)
        = some ⟨rawArrayMeta p.2 (some "gzip"), w.gzipC p.2.data⟩ := fun p hp =>
      assocFind_map_pathjoin n
        (fun q => ⟨rawArrayMeta q.2 (some "gzip"), w.gzipC q.2.data⟩) mc.constituents hnd hp
    have hpartsdl := downloadSparseParts_ok w n _ mc.constituents hfind hdl
    simp only [downloadSparseArray, hattrs, hpartsdl, Except.bind]
    cases mc with
    | csr shape d i p =>
      simp [SpMatrix.constituents, SpMatrix.arrtype, SpMatrix.canonArrays, SpMatrix.spShape,
        assocFind, List.find?, Except.bind, Except.map]
    | coo shape r c d =>
      simp [SpMatrix.constituents, SpMatrix.arrtype, SpMatrix.canonArrays, SpMatrix.spShape,
        assocFind, List.find?, Except.bind, Except.map]
    | csc shape d i p =>
      simp [SpMatrix.constituents, SpMatrix.arrtype, SpMatrix.canonArrays, SpMatrix.spShape,
        assocFind, List.find?, Except.bind, Except.map]
    | bsr shape d i p =>
      simp [SpMatrix.constituents, SpMatrix.arrtype, SpMatrix.canonArrays, SpMatrix.spShape,
        assocFind, List.find?, Except.bind, Except.map]
    | dia shape d o =>
      simp [SpMatrix.constituents, SpMatrix.arrtype, SpMatrix.canonArrays, SpMatrix.spShape,
        assocFind, List.find?, Except.bind, Except.map]
    | dok shape r => exact absurd hex (by simp [SpMatrix.isExact])
    | lil shape r => exact absurd hex (by simp [SpMatrix.isExact])

/-- C8: for every sparse matrix of the csr (compressed-row), csc
(compressed-column), bsr (block-sparse-row), coo (coordinate) or dia
(diagonal) family, downloading the objects produced by
`upload_sparse_array` reconstructs the same family with the same shape and
the same constituent buffers (hence the same values and structure), and a
dok or lil input is converted to csr before encoding and decodes to the csr
equivalent (`tocsr`) of the input.  `SpMatrix.canonArrays` only normalizes
the meaningless layout tag of each buffer (`NpArray.canon`), changing no
dtype, shape or byte.  Hypotheses: the gzip collaborator inverts itself
(every constituent is uploaded with the default gzip compression) and every
constituent is well-formed and below the 2^31 gzip threshold — above it the
upload raises (see the C4 theorem) and produces no objects. -/
theorem sparse_roundtrip {δ ε : Type} (w : Codecs)
    (tocsrD : δ → NpArray × NpArray × NpArray) (tocsrL : ε → NpArray × NpArray × NpArray)
    (hw : ∀ b, w.gzipD (w.gzipC b) = b) (n : String) (m : SpMatrix δ ε)
    (hwf : ∀ p ∈ (m.convert tocsrD tocsrL).constituents, p.2.wf) :
    ∃ st, uploadSparseArray w n tocsrD tocsrL m = .ok st ∧
      downloadSparseArray w n st = .ok ((m.convert tocsrD tocsrL).canonArrays) ∧
      ((m.convert tocsrD tocsrL).canonArrays).spShape = m.spShape := by
  obtain ⟨st, hu, hd⟩ := sparse_exact_roundtrip w tocsrD tocsrL hw n
    (m.convert tocsrD tocsrL) (convert_isExact tocsrD tocsrL m) hwf
  refine ⟨st, ?_, hd, ?_⟩
  · rw [← hu]
    simp only [uploadSparseArray,
      convert_of_isExact tocsrD tocsrL _ (convert_isExact tocsrD tocsrL m)]
  · rw [canonArrays_spShape, convert_spShape]

/-- Concrete 1×1 csr matrix with one stored element, for witnessing. -/
def csrExample : SpMatrix Unit Unit :=
  SpMatrix.csr [1, 1] ⟨"|u1", 1, [1], Order.C, [7]⟩
    ⟨"<i4", 4, [1], Order.C, [0, 0, 0, 0]⟩
    ⟨"<i4", 4, [2], Order.C, [0, 0, 0, 0, 1, 0, 0, 0]⟩

/-- Trivial conversion collaborator for witnessing (never reached on exact
families). -/
def trivialTocsr : Unit → NpArray × NpArray × NpArray :=
  fun _ => (⟨"|u1", 1, [0], Order.C, []⟩, ⟨"|u1", 1, [0], Order.C, []⟩,
    ⟨"|u1", 1, [0], Order.C, []⟩)

/-- Witness for `sparse_roundtrip`: the 1×1 csr matrix round-trips through
the identity collaborators. -/
theorem sparse_roundtrip_w :
    ∃ st, uploadSparseArray idCodecs "m" trivialTocsr trivialTocsr csrExample = .ok st ∧
      downloadSparseArray idCodecs "m" st =
        .ok ((csrExample.convert trivialTocsr trivialTocsr).canonArrays) ∧
      ((csrExample.convert trivialTocsr trivialTocsr).canonArrays).spShape =
        csrExample.spShape :=
  sparse_roundtrip idCodecs trivialTocsr trivialTocsr (fun _ => rfl) "m" csrExample
    (by decide)

/-! ## The chunk planner (`generate_ndarray_chunks`, utils.py 373-436)

The planner computes an edge length `ii` from the byte budget by float
log/exp arithmetic, then yields one chunk per coordinate tuple in the
product of `range(n)` over `dim_nchunks`, where each chunked dimension gets
`int(np.ceil(x / ii)) + 1` coordinates (note the `+ 1`: the final
coordinate's slice always starts at or past the end of the dimension and is
empty) and, in axis-confined mode, every other dimension gets exactly one.
The byte-budget edge is positive whenever the budget is (the float
computation is `ceil` of `exp` of a finite float, and `exp > 0`), so the
tiling theorems quantify over an arbitrary positive edge. -/

/-- The edge length along the chosen axis (utils.py 413-419):
`ii = int(np.ceil(np.exp(np.log(buffersize) - np.log(itemsize) - logsum)))`
with `logsum` the sum of logs of the other dimensions.  In exact arithmetic
the argument of the ceiling is `buffersize / (itemsize * prod(other dims))`,
so `ii` is the ceiling division below; the float64 log/exp evaluation agrees
with it whenever the exact quotient is not within the accumulated rounding
error (relative, a few parts in 10^13) of an integer — in particular at the
concrete inputs evaluated in this file, where the quotient is 655.36. -/
def chunkEdgeAxis (buffersize itemsize : Nat) (shape : List Nat) (a : Nat) : Nat :=
  buffersize ⌈/⌉ (itemsize * (shape.eraseIdx a).prod)

lemma one_le_chunkEdgeAxis (buffersize itemsize : Nat) (shape : List Nat) (a : Nat)
    (hb : 1 ≤ buffersize) (hm : 1 ≤ itemsize * (shape.eraseIdx a).prod) :
    1 ≤ chunkEdgeAxis buffersize itemsize shape a := by
  unfold chunkEdgeAxis
  rw [Nat.ceilDiv_eq_add_pred_div]
  rw [Nat.le_div_iff_mul_le (by omega)]
  omega

/-- Number of chunk coordinates along dimension `d` (utils.py 420-424):
`int(np.ceil(x / ii)) + 1`, overwritten to 1 on non-`axis` dimensions when
an axis is given.  For the sizes a real array can reach, float64
`np.ceil(x / ii)` agrees with exact ceiling division. -/
def dimNchunksAt (shape : List Nat) (axis : Option Nat) (ii : Nat) (d : Nat) : Nat :=
  match axis with
  | none => shape.getD d 0 ⌈/⌉ ii + 1
  | some a => if d = a then shape.getD d 0 ⌈/⌉ ii + 1 else 1

/-- The `dim_nchunks` list, one entry per dimension. -/
def dimNchunks (shape : List Nat) (axis : Option Nat) (ii : Nat) : List Nat :=
  (List.range shape.length).map (dimNchunksAt shape axis ii)

/-- Chunk edge along dimension `d` (utils.py 426-428): `ii` on chunked
dimensions, the whole dimension otherwise. -/
def chunkShapeAt (shape : List Nat) (axis : Option Nat) (ii : Nat) (d : Nat) : Nat :=
  match axis with
  | none => ii
  | some a => if d = a then ii else shape.getD d 0

/-- The `chunk_shapes` list, one entry per dimension. -/
def chunkShapes (shape : List Nat) (axis : Option Nat) (ii : Nat) : List Nat :=
  (List.range shape.length).map (chunkShapeAt shape axis ii)

/-- All yielded chunk coordinates: `itertools.product` of `range(n)` over
`dim_nchunks` (utils.py 430-432). -/
def coordGrid : List Nat → List (List Nat)
  | [] => [[]]
  | n :: ns => (List.range n).flatMap fun c => (coordGrid ns).map fun cs => c :: cs

/-- Length of the yielded slice of one chunk along one dimension (utils.py
433-436): numpy's `arr[beg:end]` with `beg = cs*c`, `end = min(cs*(c+1), s)`
has `min(cs*(c+1), s) - cs*c` elements (zero when `beg` is at or past
`end`). -/
def chunkExtent (s cs c : Nat) : Nat := min (cs * (c + 1)) s - cs * c

/-- Membership of a global index in chunk coordinate `c`'s slice along one
dimension of size `s` with chunk edge `cs`. -/
def inSlice (s cs c idx : Nat) : Prop := cs * c ≤ idx ∧ idx < min (cs * (c + 1)) s

/-- Membership of a global multi-index in the chunk at coordinates `cs`. -/
def inChunk (shape : List Nat) (axis : Option Nat) (ii : Nat)
    (cs idx : List Nat) : Prop :=
  ∀ d, d < shape.length →
    inSlice (shape.getD d 0) (chunkShapeAt shape axis ii d) (cs.getD d 0) (idx.getD d 0)

lemma getD_range_map (f : Nat → Nat) {n d : Nat} (hd : d < n) :
    ((List.range n).map f).getD d 0 = f d := by
  rw [List.getD_eq_getElem?_getD, List.getElem?_map, List.getElem?_range hd]
  rfl

lemma mem_coordGrid {dims cs : List Nat} :
    cs ∈ coordGrid dims ↔ List.Forall₂ (fun c n => c < n) cs dims := by
  induction dims generalizing cs with
  | nil =>
    simp only [coordGrid, List.mem_singleton, List.forall₂_nil_right_iff]
  | cons n ns ih =>
    cases cs with
    | nil =>
      simp [coordGrid]
    | cons c cs2 =>
      simp only [coordGrid, List.mem_flatMap, List.mem_map, List.mem_range,
        List.forall₂_cons]
      constructor
      · rintro ⟨c2, hc2, cs3, hcs3, heq⟩
        obtain ⟨rfl, rfl⟩ : c2 = c ∧ cs3 = cs2 := by
          constructor <;> [exact (List.cons.injEq _ _ _ _ ▸ heq).1;
            exact (List.cons.injEq _ _ _ _ ▸ heq).2]
        exact ⟨hc2, ih.mp hcs3⟩
      · rintro ⟨hc, hcs⟩
        exact ⟨c, hc, cs2, ih.mpr hcs, rfl⟩

lemma sum_chunkExtent_range (s ii N : Nat) :
    ((List.range N).map fun c => chunkExtent s ii c).sum = min (ii * N) s := by
  induction N with
  | zero => simp
  | succ N ih =>
    rw [show List.range (N + 1) = List.range N ++ [N] by simpa using List.range_succ (n := N),
      List.map_append, List.sum_append]
    simp only [List.map_cons, List.map_nil, List.sum_cons, List.sum_nil, ih]
    have h1 : ii * N ≤ ii * (N + 1) := Nat.mul_le_mul_left _ (by omega)
    unfold chunkExtent
    omega

lemma sum_extents_full (s ii : Nat) (hii : 1 ≤ ii) :
    ((List.range (s ⌈/⌉ ii + 1)).map fun c => chunkExtent s ii c).sum = s := by
  rw [sum_chunkExtent_range]
  have h := le_smul_ceilDiv (a := ii) (b := s) (by omega)
  rw [smul_eq_mul] at h
  have h2 : ii * (s ⌈/⌉ ii) ≤ ii * (s ⌈/⌉ ii + 1) := Nat.mul_le_mul_left _ (by omega)
  omega

lemma sum_extents_single (s : Nat) :
    ((List.range 1).map fun c => chunkExtent s s c).sum = s := by
  rw [show List.range 1 = [0] from rfl]
  simp [chunkExtent]

lemma inSlice_iff (s ii idx c : Nat) (hii : 1 ≤ ii) (hidx : idx < s) :
    inSlice s ii c idx ↔ c = idx / ii := by
  unfold inSlice
  constructor
  · rintro ⟨h1, h2⟩
    have h2a : idx < ii * (c + 1) := lt_of_lt_of_le h2 (min_le_left _ _)
    have h1a : c * ii ≤ idx := by rwa [Nat.mul_comm] at h1
    have h2b : idx < (c + 1) * ii := by rwa [Nat.mul_comm] at h2a
    exact (Nat.div_eq_of_lt_le h1a h2b).symm
  · rintro rfl
    refine ⟨?_, ?_⟩
    · rw [Nat.mul_comm]
      exact Nat.div_mul_le_self idx ii
    · refine lt_min ?_ hidx
      have h3 := Nat.lt_div_mul_add (a := idx) (show 0 < ii by omega)
      rw [Nat.mul_add, Nat.mul_one, Nat.mul_comm]
      omega

lemma inSlice_single (s idx : Nat) (hidx : idx < s) : inSlice s s 0 idx := by
  unfold inSlice
  constructor
  · omega
  · simpa [Nat.mul_one] using hidx

lemma div_lt_nchunks (s ii idx : Nat) (hii : 1 ≤ ii) (hidx : idx < s) :
    idx / ii < s ⌈/⌉ ii + 1 := by
  have h := le_smul_ceilDiv (a := ii) (b := s) (by omega)
  rw [smul_eq_mul] at h
  have h2 : idx < (s ⌈/⌉ ii) * ii := by
    rw [Nat.mul_comm] at h
    omega
  have h3 := (Nat.div_lt_iff_lt_mul (show 0 < ii by omega)).mpr h2
  omega

lemma forall₂_getD {R : Nat → Nat → Prop} {l₁ l₂ : List Nat}
    (h : List.Forall₂ R l₁ l₂) {d : Nat} (hd : d < l₂.length) :
    R (l₁.getD d 0) (l₂.getD d 0) := by
  have hlen := h.length_eq
  have hd1 : d < l₁.length := by omega
  rw [List.getD_eq_getElem?_getD, List.getElem?_eq_getElem hd1,
    List.getD_eq_getElem?_getD, List.getElem?_eq_getElem hd]
  exact h.get hd1 hd

lemma list_eq_of_getD {l₁ l₂ : List Nat} (hlen : l₁.length = l₂.length)
    (h : ∀ d, d < l₂.length → l₁.getD d 0 = l₂.getD d 0) : l₁ = l₂ := by
  apply List.ext_getElem hlen
  intro d hd1 hd2
  have := h d hd2
  rwa [List.getD_eq_getElem?_getD, List.getElem?_eq_getElem hd1,
    List.getD_eq_getElem?_getD, List.getElem?_eq_getElem hd2] at this

/-- The coordinate of the unique chunk containing a given multi-index. -/
def targetCoord (shape : List Nat) (axis : Option Nat) (ii : Nat)
    (idx : List Nat) : List Nat :=
  (List.range shape.length).map fun d =>
    match axis with
    | none => idx.getD d 0 / ii
    | some a => if d = a then idx.getD d 0 / ii else 0

lemma forall₂_range_map {R : Nat → Nat → Prop} {n : Nat} {f g : Nat → Nat}
    (h : ∀ d, d < n → R (f d) (g d)) :
    List.Forall₂ R ((List.range n).map f) ((List.range n).map g) := by
  refine List.forall₂_iff_get.mpr ⟨by simp, ?_⟩
  intro i h1 h2
  simp only [List.get_eq_getElem, List.getElem_map, List.getElem_range]
  exact h i (by simpa using h1)

/-- C2: for every shape, axis choice accepted by the planner, and positive
chunk edge length (the edge the float log/exp formula computes is the
ceiling of a positive real, hence always positive — see
`one_le_chunkEdgeAxis` for the exact axis-mode edge), the chunks yielded by
`generate_ndarray_chunks` tile the array exactly: along every dimension the
slice lengths over the yielded coordinates sum to the dimension size (the
final, always-empty coordinate contributed by the source's `+ 1`
contributing zero), and every array element lies in exactly one yielded
chunk — in particular chunks at distinct coordinates never share an
element.  The planner's size asserts (utils.py 404-406) restrict which
inputs are accepted but do not affect the grid, so they are not hypotheses
here. -/
theorem chunk_tiling (shape : List Nat) (axis : Option Nat) (ii : Nat)
    (hii : 1 ≤ ii) (haxis : ∀ a, axis = some a → a < shape.length) :
    (∀ d, d < shape.length →
      ((List.range (dimNchunksAt shape axis ii d)).map fun c =>
        chunkExtent (shape.getD d 0) (chunkShapeAt shape axis ii d) c).sum
        = shape.getD d 0) ∧
    (∀ idx, List.Forall₂ (fun i s => i < s) idx shape →
      ∃! cs, cs ∈ coordGrid (dimNchunks shape axis ii) ∧
        inChunk shape axis ii cs idx) := by
  constructor
  · intro d hd
    cases axis with
    | none =>
      simp only [dimNchunksAt, chunkShapeAt]
      exact sum_extents_full _ _ hii
    | some a =>
      by_cases hda : d = a
      · simp only [dimNchunksAt, chunkShapeAt, hda, if_pos rfl]
        exact sum_extents_full _ _ hii
      · simp only [dimNchunksAt, chunkShapeAt, if_neg hda]
        exact sum_extents_single _
  · intro idx hidx
    have hidxd : ∀ d, d < shape.length → idx.getD d 0 < shape.getD d 0 :=
      fun d hd => forall₂_getD hidx hd
    refine ⟨targetCoord shape axis ii idx, ⟨?_, ?_⟩, ?_⟩
    · rw [mem_coordGrid]
      unfold targetCoord dimNchunks
      apply forall₂_range_map
      intro d hd
      cases axis with
      | none => exact div_lt_nchunks _ _ _ hii (hidxd d hd)
      | some a =>
        by_cases hda : d = a
        · subst hda
          simp only [dimNchunksAt, if_pos]
          exact div_lt_nchunks _ _ _ hii (hidxd d hd)
        · simp only [dimNchunksAt, if_neg hda]
          omega
    · intro d hd
      unfold targetCoord
      rw [getD_range_map _ hd]
      cases axis with
      | none =>
        simp only [chunkShapeAt]
        exact (inSlice_iff _ _ _ _ hii (hidxd d hd)).mpr rfl
      | some a =>
        by_cases hda : d = a
        · subst hda
          simp only [chunkShapeAt, if_pos]
          exact (inSlice_iff _ _ _ _ hii (hidxd d hd)).mpr rfl
        · simp only [chunkShapeAt, if_neg hda]
          exact inSlice_single _ _ (hidxd d hd)
    · rintro cs2 ⟨hmem2, hin2⟩
      have hlen2 : cs2.length = shape.length := by
        have := (mem_coordGrid.mp hmem2).length_eq
        simpa [dimNchunks] using this
      have hlen0 : (targetCoord shape axis ii idx).length = shape.length := by
        simp [targetCoord]
      apply list_eq_of_getD (by omega)
      intro d hd
      rw [hlen0] at hd
      have hcs2d : cs2.getD d 0 < dimNchunksAt shape axis ii d := by
        have := forall₂_getD (mem_coordGrid.mp hmem2)
          (show d < (dimNchunks shape axis ii).length by simpa [dimNchunks] using hd)
        rwa [dimNchunks, getD_range_map _ hd] at this
      have hslice := hin2 d hd
      rw [targetCoord, getD_range_map _ hd]
      cases axis with
      | none =>
        simp only [chunkShapeAt] at hslice
        exact (inSlice_iff _ _ _ _ hii (hidxd d hd)).mp hslice
      | some a =>
        by_cases hda : d = a
        · subst hda
          simp only [chunkShapeAt, if_pos] at hslice
          simp only [if_pos]
          exact (inSlice_iff _ _ _ _ hii (hidxd d hd)).mp hslice
        · simp only [dimNchunksAt, if_neg hda] at hcs2d
          simp only [if_neg hda]
          omega

/-- Witness for `chunk_tiling`: in the isotropic grid for shape (5,3) with
edge 2, the element at index (4,2) lies in exactly one chunk. -/
theorem chunk_tiling_w :
    ∃! cs, cs ∈ coordGrid (dimNchunks [5, 3] none 2) ∧
      inChunk [5, 3] none 2 cs [4, 2] :=
  (chunk_tiling [5, 3] none 2 (by decide) (fun _ h => nomatch h)).2 [4, 2]
    (List.forall₂_cons.mpr ⟨by omega, List.forall₂_cons.mpr ⟨by omega, List.Forall₂.nil⟩⟩)

/-- C3 counterexample: for shape (1000,1000), itemsize 8, axis 1 and a
5 MiB budget, `generate_ndarray_chunks` computes edge length
ceil(5242880 / 8000) = 656 — not the claimed 640 — so the edge length times
itemsize times the other dimension exceeds the byte budget, and it yields 3
chunk coordinates along axis 1 (the last one empty), not the claimed 2. -/
theorem chunk_axis_example_off_spec :
    chunkEdgeAxis (5 * MB) 8 [1000, 1000] 1 = 656 ∧
      ¬ 656 * (8 * 1000) ≤ 5 * MB ∧
      chunkEdgeAxis (5 * MB) 8 [1000, 1000] 1 ≠ 640 ∧
      dimNchunksAt [1000, 1000] (some 1) (chunkEdgeAxis (5 * MB) 8 [1000, 1000] 1) 1
        = 3 := by
  refine ⟨rfl, by decide, by decide, rfl⟩

/-- C3 (amended): in axis-confined planning the edge length along `axis` is
the exact ceiling `ceil(byte_budget / (itemsize × product(other dims)))`,
which covers the budget from above: it may overshoot `byte_budget` by less
than one slab (one unit of the axis times the other dimensions), rather
than staying within it.  The planner yields `ceil(dim_size / edge) + 1`
coordinates along the axis — one more than the claim's
`ceil(dim_size / edge)` — with the final coordinate's slice always empty,
and every other axis is a single chunk spanning the whole dimension.  At
the claim's example (shape (1000,1000), itemsize 8, axis 1, 5 MiB budget)
the edge is 656 and there are 3 coordinates along axis 1 with slice lengths
656, 344 and 0 (see the counterexample theorem). -/
theorem chunk_axis_planning (buffersize itemsize : Nat) (shape : List Nat) (a : Nat)
    (_ha : a < shape.length) (hm : 1 ≤ itemsize * (shape.eraseIdx a).prod)
    (hb : 1 ≤ buffersize) :
    buffersize ≤
        chunkEdgeAxis buffersize itemsize shape a * (itemsize * (shape.eraseIdx a).prod) ∧
      chunkEdgeAxis buffersize itemsize shape a * (itemsize * (shape.eraseIdx a).prod)
        < buffersize + itemsize * (shape.eraseIdx a).prod ∧
      dimNchunksAt shape (some a) (chunkEdgeAxis buffersize itemsize shape a) a
        = shape.getD a 0 ⌈/⌉ chunkEdgeAxis buffersize itemsize shape a + 1 ∧
      chunkExtent (shape.getD a 0) (chunkEdgeAxis buffersize itemsize shape a)
        (shape.getD a 0 ⌈/⌉ chunkEdgeAxis buffersize itemsize shape a) = 0 ∧
      (∀ d, d < shape.length → d ≠ a →
        dimNchunksAt shape (some a) (chunkEdgeAxis buffersize itemsize shape a) d = 1 ∧
        chunkExtent (shape.getD d 0)
          (chunkShapeAt shape (some a) (chunkEdgeAxis buffersize itemsize shape a) d) 0
          = shape.getD d 0) := by
  have hii : 1 ≤ chunkEdgeAxis buffersize itemsize shape a :=
    one_le_chunkEdgeAxis buffersize itemsize shape a hb hm
  refine ⟨?_, ?_, ?_, ?_, ?_⟩
  · have h := le_smul_ceilDiv (a := itemsize * (shape.eraseIdx a).prod)
      (b := buffersize) (by omega)
    rw [smul_eq_mul, Nat.mul_comm] at h
    exact h
  · unfold chunkEdgeAxis
    rw [Nat.ceilDiv_eq_add_pred_div]
    have h := Nat.div_mul_le_self (buffersize + itemsize * (shape.eraseIdx a).prod - 1)
      (itemsize * (shape.eraseIdx a).prod)
    omega
  · simp [dimNchunksAt]
  · have h := le_smul_ceilDiv
      (a := chunkEdgeAxis buffersize itemsize shape a) (b := shape.getD a 0) (by omega)
    rw [smul_eq_mul] at h
    unfold chunkExtent
    have h2 : chunkEdgeAxis buffersize itemsize shape a *
        (shape.getD a 0 ⌈/⌉ chunkEdgeAxis buffersize itemsize shape a) ≤
        chunkEdgeAxis buffersize itemsize shape a *
        (shape.getD a 0 ⌈/⌉ chunkEdgeAxis buffersize itemsize shape a + 1) :=
      Nat.mul_le_mul_left _ (by omega)
    omega
  · intro d hd hda
    constructor
    · simp [dimNchunksAt, hda]
    · simp [chunkShapeAt, hda, chunkExtent]

/-- Witness for `chunk_axis_planning` at the claim's concrete example:
3 chunk coordinates along axis 1. -/
theorem chunk_axis_planning_w :
    dimNchunksAt [1000, 1000] (some 1) (chunkEdgeAxis (5 * MB) 8 [1000, 1000] 1) 1
      = [1000, 1000].getD 1 0 ⌈/⌉ chunkEdgeAxis (5 * MB) 8 [1000, 1000] 1 + 1 :=
  (chunk_axis_planning (5 * MB) 8 [1000, 1000] 1 (by decide) (by decide)
    (by decide)).2.2.1

/-! ## Chunked-array upload (`upload_dask_array`, interfaces.py 775-835)

The upload loop iterates over the chunks yielded by
`generate_ndarray_chunks`, uploading one part object per chunk and
accumulating the manifest's `dask` entries (chunk coordinates, part name);
after the loop, one `metadata.json` object is uploaded.  The trace below
records the store operations in issue order; the part-name content of each
operation is what the ordering claim needs, so the json payload is
modelled by its `dask` entry list (the stored json additionally carries the
global shape, the dtype, the per-chunk shapes, and a per-dimension chunk
size list derived from them after the loop, none of which affect operation
order). -/

/-- One object-store write. -/
inductive StoreOp where
  | putArray (name : String) (coords : List Nat)
  | putJson (name : String) (daskEntries : List (List Nat × String))
deriving DecidableEq, Repr

/-- The part name of the chunk at loop index `idx`: `'pt%04i' % idx`. -/
def ptName (idx : Nat) : String :=
  ⟨'p' :: 't' :: (List.replicate (4 - (natChars idx).length) '0' ++ natChars idx)⟩

/-- The manifest's `dask` entries: (chunk coordinates, part object name),
appended in generator order (interfaces.py 820-821). -/
def daskEntries (objectName : String) (coords : List (List Nat)) :
    List (List Nat × String) :=
  coords.enum.map fun ic => (ic.2, pathjoin objectName (ptName ic.1))

/-- The store operations issued by `upload_dask_array`, in order: one part
put per yielded chunk, then the manifest put (interfaces.py 814-835). -/
def uploadDaskTrace (objectName : String) (shape : List Nat) (axis : Option Nat)
    (ii : Nat) : List StoreOp :=
  let coords := coordGrid (dimNchunks shape axis ii)
  (coords.enum.map fun ic => StoreOp.putArray (pathjoin objectName (ptName ic.1)) ic.2)
    ++ [StoreOp.putJson (pathjoin objectName "metadata.json")
        (daskEntries objectName coords)]

/-- C9: in `upload_dask_array` the manifest object `metadata.json` is
written last — after every chunk part object — so every part name the
stored manifest references has already been uploaded when the manifest is
written: a reader never observes a manifest referencing an absent chunk. -/
theorem dask_manifest_last (objectName : String) (shape : List Nat)
    (axis : Option Nat) (ii : Nat) :
    (uploadDaskTrace objectName shape axis ii).getLast?
        = some (StoreOp.putJson (pathjoin objectName "metadata.json")
            (daskEntries objectName (coordGrid (dimNchunks shape axis ii)))) ∧
      ∀ e ∈ daskEntries objectName (coordGrid (dimNchunks shape axis ii)),
        StoreOp.putArray e.2 e.1 ∈ (uploadDaskTrace objectName shape axis ii).dropLast := by
  constructor
  · simp only [uploadDaskTrace]
    exact List.getLast?_concat _
  · intro e he
    simp only [daskEntries, List.mem_map] at he
    obtain ⟨ic, hic, rfl⟩ := he
    simp only [uploadDaskTrace, List.dropLast_concat]
    exact List.mem_map.mpr ⟨ic, hic, rfl⟩

/-- Witness for `dask_manifest_last`: for a one-dimensional single-element
array split with edge 1, the first referenced part is present before the
manifest. -/
theorem dask_manifest_last_w :
    StoreOp.putArray (pathjoin "arr" (ptName 0)) [0]
      ∈ (uploadDaskTrace "arr" [1] none 1).dropLast :=
  (dask_manifest_last "arr" [1] none 1).2 ([0], pathjoin "arr" (ptName 0)) (by
    have h : daskEntries "arr" (coordGrid (dimNchunks [1] none 1))
        = [([0], pathjoin "arr" (ptName 0)), ([1], pathjoin "arr" (ptName 1))] := rfl
    rw [h]
    exact List.mem_cons_self _ _)

end Cottoncandy
